import Mathlib

/-!
# Verification of `try_reduce` (fail-fast parallel fallible reduction)

Shallow embedding of `src/src/iter/try_reduce.rs`.

The Rust `Try` type `T` (with `into_result`, `from_ok`, `from_error`) is
modelled as `Except ε α` (`α` = `T::Ok`, `ε` = `T::Error`); `into_result`,
`from_ok` and `from_error` are then the identity embeddings between
`Except ε α` and `Result`-shaped values, so they disappear in the model.
The shared `AtomicBool` abort flag (`full`) is modelled by explicit state
passing: every operation that holds a `&AtomicBool` in Rust takes the
current flag value and returns the new one.  Concurrent interference on
the flag (a sibling leaf tripping it mid-run) is modelled by an oracle
`env : Nat → Bool` giving the value the k-th `full.load(...)` inside
`consume_iter`'s loop observes, and, for whole-system claims, by an
interleaving small-step relation over all leaves sharing one flag.
-/

section TryReduceModel

variable {α ε : Type}

/-- The folder state of `TryReduceFolder` (lines 92-96): the running
`result: Result<T::Ok, T::Error>`.  The `reduce_op` and `full` fields are
references to shared data and are passed separately in the model. -/
structure TryReduceFolder (α ε : Type) where
  result : Except ε α

/-- Model of `Result::is_err` on the model of `Result<T::Ok, T::Error>`. -/
def isFailure : Except ε α → Bool
  | Except.error _ => true
  | Except.ok _ => false

/-- Model of `TryReduceConsumer::into_folder` (lines 51-57): the folder starts with
`result: Ok((self.identity)())`.  `e` is the value produced by `(self.identity)()`. -/
def into_folder (e : α) : TryReduceFolder α ε :=
  { result := Except.ok e }

/-- Model of `Reducer::reduce` for `TryReduceConsumer` (lines 84-89): match on
`(left.into_result(), right.into_result())`; `(Ok, Ok)` applies `reduce_op`,
the or-pattern `(Err(e), _) | (_, Err(e))` (tried left arm first, so
left-biased) yields `T::from_error(e)`. -/
def reduce (reduce_op : α → α → Except ε α) (left right : Except ε α) : Except ε α :=
  match left, right with
  | Except.ok l, Except.ok r => reduce_op l r
  | Except.error e, _ => Except.error e
  | _, Except.error e => Except.error e

/-- The call to `Reducer::reduce` as a state transformer on the shared
abort flag: the body of `reduce` (lines 84-89) contains no
`self.full.load` and no `self.full.store`, so the flag state is returned
unchanged and the produced value is computed from `left`, `right` and
`reduce_op` alone. -/
def reduceCall (reduce_op : α → α → Except ε α) (left right : Except ε α) (full : Bool) :
    Except ε α × Bool :=
  (reduce reduce_op left right, full)

/-- Model of `TryReduceFolder::consume` (lines 105-117): the new result is
`self.result.and_then(|left| reduce_op(left, item.into_result()?).into_result())`,
then `if result.is_err() { self.full.store(true, Relaxed) }`.
Returns the new folder together with the new flag state. -/
def consume (reduce_op : α → α → Except ε α) (f : TryReduceFolder α ε) (full : Bool)
    (item : Except ε α) : TryReduceFolder α ε × Bool :=
  let result : Except ε α :=
    match f.result with
    | Except.error e => Except.error e
    | Except.ok left =>
      match item with
      | Except.error e => Except.error e
      | Except.ok right => reduce_op left right
  ({ result := result }, if isFailure result then true else full)

/-- Model of `TryReduceFolder::complete` (lines 159-164): reveal the variant of the
running result via `T::from_ok` / `T::from_error`. -/
def complete (f : TryReduceFolder α ε) : Except ε α :=
  match f.result with
  | Except.ok ok => Except.ok ok
  | Except.error error => Except.error error

/-- One per-item folding step on a running result (the computation shared
by `consume`, lines 105-117, and one iteration of `consume_iter`'s loop,
lines 129-143):
`result.and_then(|left| reduce_op(left, item.into_result()?).into_result())`. -/
def step1 (reduce_op : α → α → Except ε α) (res item : Except ε α) : Except ε α :=
  match res with
  | Except.error e => Except.error e
  | Except.ok l =>
    match item with
    | Except.error e => Except.error e
    | Except.ok r => reduce_op l r

/-- The `try_fold` closure loop inside `TryReduceFolder::consume_iter`
(lines 129-143), together with the number of `reduce_op` invocations it
performs.  Each iteration computes
`this_step = item.into_result().and_then(|right| reduce_op(acc, right).into_result())`
(so `reduce_op` is called exactly when the item projects to `Ok`), breaks
with `Err(this_step)` when `this_step` is `Err`, breaks with
`Err(this_step)` when the subsequent `full.load(Relaxed)` observes `true`,
and otherwise continues with the new accumulator.  `env k` is the value the
k-th load observes (the flag is shared, so a sibling may have tripped it). -/
def consumeIterLoop (reduce_op : α → α → Except ε α) :
    (Nat → Bool) → α → List (Except ε α) → Except (Except ε α) α × Nat
  | _, acc, [] => (Except.ok acc, 0)
  | _, _, Except.error e :: _ => (Except.error (Except.error e), 0)
  | env, acc, Except.ok right :: rest =>
    match reduce_op acc right with
    | Except.error e => (Except.error (Except.error e), 1)
    | Except.ok value =>
      if env 0 then (Except.error (Except.ok value), 1)
      else
        let p := consumeIterLoop reduce_op (fun m => env (m + 1)) value rest
        (p.1, p.2 + 1)

/-- Model of `TryReduceFolder::consume_iter` (lines 119-157): on an `Ok` running
result, run the `try_fold` loop and unwrap the break value
(`match inner_result { Err(result) => result, Ok(value) => Ok(value) }`);
then `if result.is_err() { self.full.store(true, Relaxed) }`.  `env` is the
oracle for the flag loads inside the loop; the returned `Bool` is the flag
state as left by this leaf's own store. -/
def consume_iter (reduce_op : α → α → Except ε α) (f : TryReduceFolder α ε)
    (env : Nat → Bool) (items : List (Except ε α)) (full : Bool) :
    TryReduceFolder α ε × Bool :=
  let result : Except ε α :=
    match f.result with
    | Except.error e => Except.error e
    | Except.ok left =>
      match (consumeIterLoop reduce_op env left items).1 with
      | Except.error r => r
      | Except.ok value => Except.ok value
  ({ result := result }, if isFailure result then true else full)

/-- The number of `reduce_op` calls a `consume_iter` invocation performs. -/
def consumeIterCalls (reduce_op : α → α → Except ε α) (f : TryReduceFolder α ε)
    (env : Nat → Bool) (items : List (Except ε α)) : Nat :=
  match f.result with
  | Except.error _ => 0
  | Except.ok left => (consumeIterLoop reduce_op env left items).2

/-- Folding a whole run of items through repeated `consume` calls,
threading the shared flag, starting from a given folder state. -/
def runConsume (reduce_op : α → α → Except ε α) :
    TryReduceFolder α ε × Bool → List (Except ε α) → TryReduceFolder α ε × Bool
  | fb, [] => fb
  | fb, item :: rest => runConsume reduce_op (consume reduce_op fb.1 fb.2 item) rest

/-- The `Outcome` a leaf reports for a run: start at
`Ok((self.identity)())` (`into_folder`, line 54), `consume` each item of
the run in order, and `complete`. -/
def leafOutcome (reduce_op : α → α → Except ε α) (e : α) (run : List (Except ε α)) :
    Except ε α :=
  complete (runConsume reduce_op (into_folder e, false) run).1

/-- The sequential left-to-right fallible fold of a run: each item is
absorbed by one `step1`, exactly what a single leaf's repeated `consume`
calls compute on its running result. -/
def seqFold (reduce_op : α → α → Except ε α) :
    Except ε α → List (Except ε α) → Except ε α
  | acc, [] => acc
  | acc, item :: rest => seqFold reduce_op (step1 reduce_op acc item) rest

/-- An order-preserving split/merge tree: leaves hold the ordered
contiguous runs the driver hands to `into_folder`-produced folders, inner
nodes are `Reducer::reduce` merge steps of adjacent subtrees. -/
inductive SplitTree (α ε : Type) where
  | leaf (run : List (Except ε α))
  | node (l r : SplitTree α ε)

/-- The input items a split tree covers, in order. -/
def SplitTree.flatten : SplitTree α ε → List (Except ε α)
  | SplitTree.leaf run => run
  | SplitTree.node l r => l.flatten ++ r.flatten

/-- The Outcome the engine produces for a split tree: leaf runs are folded
through the real `consume`/`complete` machinery, sibling outcomes are
merged with the real `reduce`. -/
def SplitTree.outcome (reduce_op : α → α → Except ε α) (e : α) :
    SplitTree α ε → Except ε α
  | SplitTree.leaf run => leafOutcome reduce_op e run
  | SplitTree.node l r => reduce reduce_op (l.outcome reduce_op e) (r.outcome reduce_op e)

/-- The state of one leaf in the interleaved whole-system model: the
folder's running result, the items of its run not yet consumed, and
whether the leaf has stopped (run exhausted and completed, or stopped
early after observing the tripped flag). -/
structure LeafState (α ε : Type) where
  result : Except ε α
  remaining : List (Except ε α)
  halted : Bool

/-- Whole-system state: the single shared abort flag of one `try_reduce`
invocation and the states of all leaves. -/
structure SysState (α ε : Type) where
  flag : Bool
  leaves : List (LeafState α ε)

/-- The interleaving small-step relation over the whole reduction.
`process` is one item consumed by a leaf (one `consume` call, lines
105-117, or one iteration of `consume_iter`'s loop, lines 129-143): the
running result is updated by `step1`, and when the new result is a failure
the shared flag is stored `true` (`self.full.store(true, Relaxed)`).
`stop` is a leaf halting with items remaining because the shared flag is
observed `true` (the `full.load(Relaxed)` break in `consume_iter`, line
139, or the driver pruning via `Consumer::full`, lines 59-61).  `finish`
is a leaf whose run is exhausted being finalized (`complete`).  The
scheduler may pick any leaf at any step, which models the arbitrary
concurrent interleaving of leaves sharing the flag. -/
inductive Step (reduce_op : α → α → Except ε α) : SysState α ε → SysState α ε → Prop
  | process (s : SysState α ε) (i : Nat) (L : LeafState α ε) (item : Except ε α)
      (rest : List (Except ε α)) :
      s.leaves.get? i = some L → L.halted = false → L.remaining = item :: rest →
      Step reduce_op s
        { flag := s.flag || isFailure (step1 reduce_op L.result item),
          leaves := s.leaves.set i
            { result := step1 reduce_op L.result item, remaining := rest, halted := false } }
  | stop (s : SysState α ε) (i : Nat) (L : LeafState α ε) :
      s.leaves.get? i = some L → L.halted = false → s.flag = true →
      Step reduce_op s
        { flag := s.flag, leaves := s.leaves.set i { L with halted := true } }
  | finish (s : SysState α ε) (i : Nat) (L : LeafState α ε) :
      s.leaves.get? i = some L → L.halted = false → L.remaining = [] →
      Step reduce_op s
        { flag := s.flag, leaves := s.leaves.set i { L with halted := true } }

/-- Reachability: zero or more interleaved steps. -/
def Reaches (reduce_op : α → α → Except ε α) : SysState α ε → SysState α ε → Prop :=
  Relation.ReflTransGen (Step reduce_op)

/-- The initial state of a `try_reduce` invocation (lines 14-20): the
shared flag is created clear (`AtomicBool::new(false)`, line 14) and the
driver has split the input into ordered contiguous runs, one leaf per run,
each folder starting at `Ok(identity())` (`into_folder`, line 54). -/
def initState (e : α) (runs : List (List (Except ε α))) : SysState α ε :=
  { flag := false,
    leaves := runs.map fun run =>
      { result := Except.ok e, remaining := run, halted := false } }

/-- All leaves have stopped consuming. -/
def AllHalted (s : SysState α ε) : Prop := ∀ L ∈ s.leaves, L.halted = true

/-- The completed Outcomes of the leaves of a system state, in input
order. -/
def sysOutcomes (s : SysState α ε) : List (Except ε α) :=
  s.leaves.map fun L => complete { result := L.result }

/-- A pairwise merge tree over completed leaf Outcomes: each inner node is
one `Reducer::reduce` call (lines 84-89) on the Outcomes of its two
children. -/
inductive MergeTree (α ε : Type) where
  | leaf (o : Except ε α)
  | node (l r : MergeTree α ε)

/-- The leaf Outcomes a merge tree combines, in order. -/
def MergeTree.outs : MergeTree α ε → List (Except ε α)
  | MergeTree.leaf o => [o]
  | MergeTree.node l r => l.outs ++ r.outs

/-- The Outcome a merge tree produces. -/
def MergeTree.result (reduce_op : α → α → Except ε α) : MergeTree α ε → Except ε α
  | MergeTree.leaf o => o
  | MergeTree.node l r => reduce reduce_op (l.result reduce_op) (r.result reduce_op)

/-- Some leaf's running result is already a failure. -/
def ErrLeaf (s : SysState α ε) : Prop :=
  ∃ n L, s.leaves.get? n = some L ∧ isFailure L.result = true

/-- The shared flag is still clear and some still-running leaf has a
failing item ahead of it in its run. -/
def PendingFail (s : SysState α ε) : Prop :=
  s.flag = false ∧ ∃ n L, s.leaves.get? n = some L ∧ L.halted = false ∧
    ∃ item ∈ L.remaining, isFailure item = true

/-- Either some leaf has already failed, or the failure is still pending
in an unhalted leaf (and then nobody can have stopped early yet, because
the flag is clear). -/
def FailInv (s : SysState α ε) : Prop := ErrLeaf s ∨ PendingFail s

/-- Associativity of a fallible combining operation, in the Kleisli sense:
combining `a` with `b` and then the result with `c` agrees with combining
`b` with `c` and then `a` with the result, failures included. -/
def KleisliAssoc (op : α → α → Except ε α) : Prop :=
  ∀ a b c, (op a b).bind (fun x => op x c) = (op b c).bind (fun y => op a y)

/-- Property that `e` is a true two-sided identity for the combining operation. -/
def TwoSidedId (op : α → α → Except ε α) (e : α) : Prop :=
  ∀ a, op e a = Except.ok a ∧ op a e = Except.ok a

/-- The contiguous segment of a list from position `i` (inclusive) to
position `j` (exclusive). -/
def listSeg (xs : List β) (i j : Nat) : List β :=
  (xs.drop i).take (j - i)

/-- Scenario A's combining operation: sum, but sums over 5 yield
`Failure("overflow")`. -/
def capOp (a b : Nat) : Except String Nat :=
  if a + b > 5 then Except.error "overflow" else Except.ok (a + b)

/-- Scenario A's input sequence:
`[Success(1), Success(2), Failure("bad"), Success(4)]`. -/
def scenarioItems : List (Except String Nat) :=
  [Except.ok 1, Except.ok 2, Except.error "bad", Except.ok 4]

/-- An always-successful sum, used to instantiate theorems on concrete
inputs. -/
def addOp (a b : Nat) : Except String Nat := Except.ok (a + b)

/-- Decidable equality of modelled Outcomes, so concrete instances can be
settled by evaluation. -/
instance [DecidableEq ε] [DecidableEq α] : DecidableEq (Except ε α)
  | Except.ok a, Except.ok b =>
    if h : a = b then Decidable.isTrue (by rw [h])
    else Decidable.isFalse (by intro hc; injection hc with h2; exact h h2)
  | Except.ok _, Except.error _ => Decidable.isFalse (by intro hc; exact Except.noConfusion hc)
  | Except.error _, Except.ok _ => Decidable.isFalse (by intro hc; exact Except.noConfusion hc)
  | Except.error e, Except.error e' =>
    if h : e = e' then Decidable.isTrue (by rw [h])
    else Decidable.isFalse (by intro hc; injection hc with h2; exact h h2)

end TryReduceModel

section TryReduceLemmas

variable {α ε : Type}

theorem complete_eq (f : TryReduceFolder α ε) : complete f = f.result := by
  cases h : f.result <;> simp [complete, h]

theorem consume_result (op : α → α → Except ε α) (f : TryReduceFolder α ε)
    (full : Bool) (item : Except ε α) :
    (consume op f full item).1.result = step1 op f.result item := rfl

theorem consume_flag (op : α → α → Except ε α) (f : TryReduceFolder α ε)
    (full : Bool) (item : Except ε α) :
    (consume op f full item).2 = (full || isFailure (step1 op f.result item)) := by
  show (if isFailure (step1 op f.result item) then true else full) = _
  cases isFailure (step1 op f.result item) <;> cases full <;> rfl

theorem step1_error (op : α → α → Except ε α) (e : ε) (item : Except ε α) :
    step1 op (Except.error e) item = Except.error e := rfl

theorem isFailure_reduce (op : α → α → Except ε α) (l r : Except ε α)
    (h : isFailure l = true ∨ isFailure r = true) :
    isFailure (reduce op l r) = true := by
  cases l with
  | error e => cases r <;> rfl
  | ok a =>
    cases r with
    | error e => rfl
    | ok b => simp [isFailure] at h

theorem if_true_eq_or (b c : Bool) : (if b then true else c) = (c || b) := by
  cases b <;> cases c <;> rfl

end TryReduceLemmas

section EasyClaims

variable {α ε : Type}

/-- Claim C4: for every pair of completed Outcomes, the Merge Step
`reduce` returns `combine(left.value, right.value)` when both are
`Success`, returns a Failure when either operand is a Failure, and when
both operands are Failures returns the left operand's failure value. -/
theorem claim_C4_reduce_cases (op : α → α → Except ε α) (a b : α) (e1 e2 : ε)
    (left right : Except ε α) :
    reduce op (Except.ok a) (Except.ok b) = op a b
  ∧ isFailure (reduce op (Except.error e1) right) = true
  ∧ isFailure (reduce op left (Except.error e2)) = true
  ∧ reduce op (Except.error e1) (Except.error e2) = Except.error e1 := by
  exact ⟨rfl, isFailure_reduce op (Except.error e1) right (Or.inl rfl),
    isFailure_reduce op left (Except.error e2) (Or.inr rfl), rfl⟩

/-- Claim C5: the Merge Step never reads or writes the shared abort flag:
the flag state after a `reduce` call equals its state before, and the
value returned does not depend on the flag; the flag is written only by
leaf-level consumption (`consume` and `consume_iter`), which store `true`
exactly when the leaf's new running result is a failure. -/
theorem claim_C5_reduce_no_signal (op : α → α → Except ε α)
    (left right : Except ε α) (full full' : Bool) (f : TryReduceFolder α ε)
    (env : Nat → Bool) (items : List (Except ε α)) (item : Except ε α) :
    (reduceCall op left right full).2 = full
  ∧ (reduceCall op left right full).1 = (reduceCall op left right full').1
  ∧ (consume op f full item).2 =
      (full || isFailure ((consume op f full item).1.result))
  ∧ (consume_iter op f env items full).2 =
      (full || isFailure ((consume_iter op f env items full).1.result)) := by
  exact ⟨rfl, rfl,
    if_true_eq_or (isFailure ((consume op f full item).1.result)) full,
    if_true_eq_or (isFailure ((consume_iter op f env items full).1.result)) full⟩

/-- Claim C7: single-item `consume`: a running Failure is preserved
unchanged regardless of the item; on a running Success, an item that
projects to a failure becomes the new running value and the flag is
stored `true`; an item that projects to a success is combined with the
running success value via `reduce_op`, and the flag is stored `true`
exactly when that combination (or the prior flag) requires it. -/
theorem claim_C7_consume_cases (op : α → α → Except ε α) (l r : α) (e : ε)
    (full : Bool) (item : Except ε α) :
    (consume op { result := Except.error e } full item).1.result = Except.error e
  ∧ (consume op { result := Except.ok l } full (Except.error e)).1.result = Except.error e
  ∧ (consume op { result := Except.ok l } full (Except.error e)).2 = true
  ∧ (consume op { result := Except.ok l } full (Except.ok r)).1.result = op l r
  ∧ (consume op { result := Except.ok l } full (Except.ok r)).2 =
      (full || isFailure (op l r)) := by
  refine ⟨rfl, rfl, rfl, rfl, ?_⟩
  show (if isFailure (op l r) then true else full) = _
  cases isFailure (op l r) <;> cases full <;> rfl

/-- Claim C8: a leaf that consumes zero items yields `Success(identity())`:
`into_folder` starts the running value at `Ok(identity())`, and `complete`
on the fresh folder returns the success Outcome wrapping the identity
value. -/
theorem claim_C8_empty_leaf (op : α → α → Except ε α) (e : α) :
    (into_folder e : TryReduceFolder α ε).result = Except.ok e
  ∧ complete (into_folder e : TryReduceFolder α ε) = Except.ok e
  ∧ leafOutcome op e [] = Except.ok e :=
  ⟨rfl, rfl, rfl⟩

end EasyClaims

section SignalClaims

variable {α ε : Type}

theorem step_flag_mono (op : α → α → Except ε α) {s s' : SysState α ε}
    (h : Step op s s') (hf : s.flag = true) : s'.flag = true := by
  cases h with
  | process i L item rest h1 h2 h3 => simp [hf]
  | stop i L h1 h2 h3 => exact hf
  | finish i L h1 h2 h3 => exact hf

theorem reaches_flag_mono (op : α → α → Except ε α) {s s' : SysState α ε}
    (h : Reaches op s s') (hf : s.flag = true) : s'.flag = true := by
  induction h with
  | refl => exact hf
  | tail hr hstep ih => exact step_flag_mono op hstep ih

/-- Claim C9: the abort flag is monotonic: it is created clear
(`AtomicBool::new(false)`) once per `try_reduce` invocation, every write
performed by `consume` or `consume_iter` stores `true` (the new flag is
the old one OR-ed with the failure of the new running result), and along
every sequence of interleaved system steps a tripped flag stays tripped. -/
theorem claim_C9_signal_monotone (op : α → α → Except ε α) (e : α)
    (runs : List (List (Except ε α))) (f : TryReduceFolder α ε) (env : Nat → Bool)
    (items : List (Except ε α)) (item : Except ε α) (full : Bool)
    (s s' : SysState α ε) (h : Reaches op s s') :
    (initState e runs).flag = false
  ∧ (consume op f full item).2 =
      (full || isFailure ((consume op f full item).1.result))
  ∧ (consume_iter op f env items full).2 =
      (full || isFailure ((consume_iter op f env items full).1.result))
  ∧ (s.flag = true → s'.flag = true) :=
  ⟨rfl, if_true_eq_or _ full, if_true_eq_or _ full, reaches_flag_mono op h⟩

theorem claim_C9_signal_monotone_witness :
    (initState 0 ([[Except.error "bad"]] : List (List (Except String Nat)))).flag = false
  ∧ (consume addOp { result := Except.ok 0 } false (Except.ok 1)).2 =
      (false || isFailure ((consume addOp { result := Except.ok 0 } false
        (Except.ok 1)).1.result))
  ∧ (consume_iter addOp { result := Except.ok 0 } (fun _ => false) [] false).2 =
      (false || isFailure ((consume_iter addOp { result := Except.ok 0 }
        (fun _ => false) [] false).1.result))
  ∧ ((⟨true, []⟩ : SysState Nat String).flag = true →
      (⟨true, []⟩ : SysState Nat String).flag = true) :=
  claim_C9_signal_monotone addOp 0 [[Except.error "bad"]] { result := Except.ok 0 }
    (fun _ => false) [] (Except.ok 1) false ⟨true, []⟩ ⟨true, []⟩
    Relation.ReflTransGen.refl

theorem consumeIterLoop_calls_le (op : α → α → Except ε α) :
    ∀ (items : List (Except ε α)) (env : Nat → Bool) (acc : α) (k : Nat),
      (∀ m, k ≤ m → env m = true) →
      (consumeIterLoop op env acc items).2 ≤ k + 1 := by
  intro items
  induction items with
  | nil => intro env acc k h; simp [consumeIterLoop]
  | cons item rest ih =>
    intro env acc k h
    cases item with
    | error e => simp [consumeIterLoop]
    | ok right =>
      cases hop : op acc right with
      | error e => simp [consumeIterLoop, hop]
      | ok value =>
        cases h0 : env 0 with
        | true => simp [consumeIterLoop, hop, h0]
        | false =>
          cases k with
          | zero =>
            have := h 0 (Nat.le_refl 0)
            rw [h0] at this
            exact absurd this (by simp)
          | succ k' =>
            have hrec : (consumeIterLoop op (fun m => env (m + 1)) value rest).2 ≤ k' + 1 :=
              ih (fun m => env (m + 1)) value k'
                (fun m hm => h (m + 1) (Nat.succ_le_succ hm))
            simp [consumeIterLoop, hop, h0]
            omega

/-- Claim C6: for every run handed to the bulk path `consume_iter` whose
flag loads observe `true` from check `k` on (in particular `k = 0` when
the flag is already tripped at entry), the folder performs at most `k + 1`
combining calls in total — hence at most one combining call after the trip
is observable — no matter how many items the run holds. -/
theorem claim_C6_bounded_excess_work (op : α → α → Except ε α)
    (f : TryReduceFolder α ε) (items : List (Except ε α)) (env : Nat → Bool)
    (k : Nat) (henv : ∀ m, k ≤ m → env m = true) :
    consumeIterCalls op f env items ≤ k + 1 := by
  cases hf : f.result with
  | error e => simp [consumeIterCalls, hf]
  | ok left =>
    simpa [consumeIterCalls, hf] using
      consumeIterLoop_calls_le op items env left k henv

theorem claim_C6_bounded_excess_work_witness :
    consumeIterCalls addOp { result := Except.ok 0 } (fun _ => true)
      [Except.ok 1, Except.ok 1, Except.ok 1, Except.ok 1, Except.ok 1] ≤ 0 + 1 :=
  claim_C6_bounded_excess_work addOp _ _ _ 0 (fun _ _ => rfl)

theorem seqFold_error (op : α → α → Except ε α) (e : ε) :
    ∀ xs : List (Except ε α), seqFold op (Except.error e) xs = Except.error e := by
  intro xs
  induction xs with
  | nil => rfl
  | cons item rest ih => simpa [seqFold, step1_error] using ih

theorem consumeIterLoop_early_stop (op : α → α → Except ε α) :
    ∀ (items : List (Except ε α)) (k : Nat) (env : Nat → Bool) (acc v : α),
      k < items.length →
      (∀ m, env m = decide (k ≤ m)) →
      seqFold op (Except.ok acc) (items.take (k + 1)) = Except.ok v →
      (consumeIterLoop op env acc items).1 = Except.error (Except.ok v) := by
  intro items
  induction items with
  | nil => intro k env acc v hk; exact absurd hk (by simp)
  | cons item rest ih =>
    intro k env acc v hk henv hfold
    cases item with
    | error e =>
      rw [List.take_succ_cons, seqFold, step1] at hfold
      rw [seqFold_error] at hfold
      exact absurd hfold (by simp)
    | ok right =>
      rw [List.take_succ_cons, seqFold] at hfold
      cases hop : op acc right with
      | error e =>
        rw [show step1 op (Except.ok acc) (Except.ok right) = op acc right from rfl,
          hop, seqFold_error] at hfold
        exact absurd hfold (by simp)
      | ok value =>
        rw [show step1 op (Except.ok acc) (Except.ok right) = op acc right from rfl,
          hop] at hfold
        cases k with
        | zero =>
          have h0 : env 0 = true := by rw [henv]; rfl
          simp only [List.take_zero, seqFold] at hfold
          simp [consumeIterLoop, hop, h0, hfold]
        | succ k' =>
          have h0 : env 0 = false := by rw [henv]; rfl
          have hrec :=
            ih k' (fun m => env (m + 1)) value v (by simpa using Nat.lt_of_succ_lt_succ hk)
              (fun m => by
                show env (m + 1) = decide (k' ≤ m)
                rw [henv]
                simp [Nat.succ_le_succ_iff]) hfold
          simp [consumeIterLoop, hop, h0, hrec]

/-- Claim C10: a leaf whose running value is still a success and whose
bulk run observes the abort flag tripped from check `k` on (with `k`
inside the run, e.g. tripped by a sibling) stops early with its running
value the successful fold of exactly the first `k + 1` items — the flag is
checked only after each item is combined, never before the first, so item
`k` is still combined after the trip — its own store is not executed (the
flag is returned unchanged), and `complete` returns that Success. -/
theorem claim_C10_early_stop_keeps_success (op : α → α → Except ε α)
    (acc v : α) (items : List (Except ε α)) (k : Nat) (env : Nat → Bool) (full : Bool)
    (hk : k < items.length)
    (henv : ∀ m, env m = decide (k ≤ m))
    (hfold : seqFold op (Except.ok acc) (items.take (k + 1)) = Except.ok v) :
    (consume_iter op { result := Except.ok acc } env items full).1.result = Except.ok v
  ∧ (consume_iter op { result := Except.ok acc } env items full).2 = full
  ∧ complete (consume_iter op { result := Except.ok acc } env items full).1 =
      Except.ok v := by
  have hloop := consumeIterLoop_early_stop op items k env acc v hk henv hfold
  have hres : (consume_iter op { result := Except.ok acc } env items full).1.result =
      Except.ok v := by
    show (match (consumeIterLoop op env acc items).1 with
      | Except.error r => r
      | Except.ok value => Except.ok value) = Except.ok v
    rw [hloop]
  refine ⟨hres, ?_, ?_⟩
  · show (if isFailure ((consume_iter op { result := Except.ok acc } env items full).1.result)
      then true else full) = full
    rw [hres]
    rfl
  · rw [complete_eq, hres]

theorem claim_C10_early_stop_keeps_success_witness :
    1 < ([Except.ok 1, Except.ok 2, Except.ok 3] : List (Except String Nat)).length
  ∧ seqFold addOp (Except.ok 0) (([Except.ok 1, Except.ok 2, Except.ok 3] :
      List (Except String Nat)).take (1 + 1)) = Except.ok 3
  ∧ (consume_iter addOp { result := Except.ok 0 } (fun m => decide (1 ≤ m))
      [Except.ok 1, Except.ok 2, Except.ok 3] false).1.result = Except.ok 3
  ∧ (consume_iter addOp { result := Except.ok 0 } (fun m => decide (1 ≤ m))
      [Except.ok 1, Except.ok 2, Except.ok 3] false).2 = false
  ∧ complete (consume_iter addOp { result := Except.ok 0 } (fun m => decide (1 ≤ m))
      [Except.ok 1, Except.ok 2, Except.ok 3] false).1 = Except.ok 3 := by
  have h := claim_C10_early_stop_keeps_success addOp 0 3
    [Except.ok 1, Except.ok 2, Except.ok 3] 1 (fun m => decide (1 ≤ m)) false
    (by decide) (fun m => rfl) rfl
  exact ⟨by decide, rfl, h.1, h.2.1, h.2.2⟩

end SignalClaims

section EquivalenceClaims

variable {α ε : Type}

theorem runConsume_result (op : α → α → Except ε α) :
    ∀ (run : List (Except ε α)) (fb : TryReduceFolder α ε × Bool),
      ((runConsume op fb run).1).result = seqFold op fb.1.result run := by
  intro run
  induction run with
  | nil => intro fb; rfl
  | cons item rest ih =>
    intro fb
    show ((runConsume op (consume op fb.1 fb.2 item) rest).1).result = _
    rw [ih (consume op fb.1 fb.2 item)]
    rfl

theorem leafOutcome_eq_seqFold (op : α → α → Except ε α) (e : α)
    (run : List (Except ε α)) :
    leafOutcome op e run = seqFold op (Except.ok e) run := by
  unfold leafOutcome
  rw [complete_eq, runConsume_result]
  rfl

theorem seqFold_append (op : α → α → Except ε α) :
    ∀ (xs ys : List (Except ε α)) (acc : Except ε α),
      seqFold op acc (xs ++ ys) = seqFold op (seqFold op acc xs) ys := by
  intro xs
  induction xs with
  | nil => intro ys acc; rfl
  | cons item rest ih => intro ys acc; exact ih ys (step1 op acc item)

theorem step1_ok (op : α → α → Except ε α) (acc : Except ε α) (c : α) :
    step1 op acc (Except.ok c) = acc.bind (fun x => op x c) := by
  cases acc <;> rfl

theorem reduce_ok_left (op : α → α → Except ε α) (a : α) (B : Except ε α) :
    reduce op (Except.ok a) B = B.bind (fun x => op a x) := by
  cases B <;> rfl

theorem reduce_error_left (op : α → α → Except ε α) (e : ε) (B : Except ε α) :
    reduce op (Except.error e) B = Except.error e := by
  cases B <;> rfl

theorem seqFold_assoc_out (op : α → α → Except ε α) (hassoc : KleisliAssoc op) (a : α) :
    ∀ (ys : List α) (b : α),
      seqFold op (op a b) (ys.map Except.ok) =
        (seqFold op (Except.ok b) (ys.map Except.ok)).bind (fun x => op a x) := by
  intro ys
  induction ys with
  | nil => intro b; cases h : op a b <;> simp [seqFold, Except.bind, h]
  | cons c ys ih =>
    intro b
    show seqFold op (step1 op (op a b) (Except.ok c)) (ys.map Except.ok) =
      (seqFold op (step1 op (Except.ok b) (Except.ok c)) (ys.map Except.ok)).bind
        (fun x => op a x)
    rw [step1_ok, hassoc a b c,
      show step1 op (Except.ok b) (Except.ok c) = op b c from rfl]
    cases h : op b c with
    | error e =>
      show seqFold op (Except.error e) _ = _
      simp [seqFold_error, Except.bind]
    | ok y =>
      show seqFold op (op a y) _ = _
      exact ih y

theorem seqFold_ok_out (op : α → α → Except ε α) (e : α)
    (hassoc : KleisliAssoc op) (hid : TwoSidedId op e) :
    ∀ (xs : List α) (a : α),
      seqFold op (Except.ok a) (xs.map Except.ok) =
        (seqFold op (Except.ok e) (xs.map Except.ok)).bind (fun x => op a x) := by
  intro xs a
  cases xs with
  | nil =>
    show Except.ok a = op a e
    rw [(hid a).2]
  | cons y xs =>
    show seqFold op (step1 op (Except.ok a) (Except.ok y)) (xs.map Except.ok) =
      (seqFold op (step1 op (Except.ok e) (Except.ok y)) (xs.map Except.ok)).bind
        (fun x => op a x)
    rw [show step1 op (Except.ok a) (Except.ok y) = op a y from rfl,
      show step1 op (Except.ok e) (Except.ok y) = op e y from rfl, (hid y).1]
    exact seqFold_assoc_out op hassoc a xs y

theorem splitTree_outcome_eq_seqFold (op : α → α → Except ε α) (e : α)
    (hassoc : KleisliAssoc op) (hid : TwoSidedId op e) :
    ∀ (t : SplitTree α ε) (vals : List α),
      t.flatten = vals.map Except.ok →
      t.outcome op e = seqFold op (Except.ok e) t.flatten := by
  intro t
  induction t with
  | leaf run =>
    intro vals hcover
    exact leafOutcome_eq_seqFold op e run
  | node l r ihl ihr =>
    intro vals hcover
    obtain ⟨vs1, vs2, hv, h1, h2⟩ := List.append_eq_map_iff.mp hcover
    show reduce op (l.outcome op e) (r.outcome op e) = _
    rw [ihl vs1 h1.symm, ihr vs2 h2.symm,
      show (SplitTree.node l r).flatten = l.flatten ++ r.flatten from rfl,
      seqFold_append]
    cases hA : seqFold op (Except.ok e) l.flatten with
    | error e' =>
      rw [seqFold_error]
      exact reduce_error_left op e' _
    | ok a =>
      rw [reduce_ok_left, ← h2]
      exact (seqFold_ok_out op e hassoc hid vs2 a).symm

/-- Claim C1: for every input sequence with no failing items, every
Kleisli-associative combining operation with a true two-sided identity,
and every split of the input into ordered contiguous runs — each run
folded by a leaf via `consume` starting from `Ok(identity())` and
finalized by `complete`, sibling Outcomes merged pairwise in input order
by `reduce` — the engine's Outcome equals the sequential left-to-right
fold of the whole sequence by a single leaf. -/
theorem claim_C1_engine_matches_sequential (op : α → α → Except ε α) (e : α)
    (t : SplitTree α ε) (vals : List α)
    (hassoc : KleisliAssoc op) (hid : TwoSidedId op e)
    (hcover : t.flatten = vals.map Except.ok) :
    t.outcome op e = leafOutcome op e (vals.map Except.ok) := by
  rw [splitTree_outcome_eq_seqFold op e hassoc hid t vals hcover, hcover,
    leafOutcome_eq_seqFold]

theorem claim_C1_engine_matches_sequential_witness :
    KleisliAssoc addOp
  ∧ TwoSidedId addOp 0
  ∧ (SplitTree.node (SplitTree.leaf [Except.ok 1])
      (SplitTree.node (SplitTree.leaf [Except.ok 2, Except.ok 3])
        (SplitTree.leaf [])) : SplitTree Nat String).flatten =
      ([1, 2, 3] : List Nat).map Except.ok
  ∧ (SplitTree.node (SplitTree.leaf [Except.ok 1])
      (SplitTree.node (SplitTree.leaf [Except.ok 2, Except.ok 3])
        (SplitTree.leaf [])) : SplitTree Nat String).outcome addOp 0 =
      leafOutcome addOp 0 (([1, 2, 3] : List Nat).map Except.ok) := by
  have hassoc : KleisliAssoc addOp := by
    intro a b c
    show Except.ok (a + b + c) = Except.ok (a + (b + c))
    rw [Nat.add_assoc]
  have hid : TwoSidedId addOp 0 := by
    intro a
    exact ⟨by show Except.ok (0 + a) = _; rw [Nat.zero_add],
      by show Except.ok (a + 0) = _; rfl⟩
  refine ⟨hassoc, hid, rfl, ?_⟩
  exact claim_C1_engine_matches_sequential addOp 0
    (SplitTree.node (SplitTree.leaf [Except.ok 1])
      (SplitTree.node (SplitTree.leaf [Except.ok 2, Except.ok 3])
        (SplitTree.leaf []))) [1, 2, 3] hassoc hid rfl

end EquivalenceClaims

section FailureClaims

variable {α ε : Type}

theorem step1_keeps_failure (op : α → α → Except ε α) (res item : Except ε α)
    (h : isFailure res = true) : isFailure (step1 op res item) = true := by
  cases res with
  | error e => rfl
  | ok a => exact absurd h (by simp [isFailure])

theorem step1_fail_item (op : α → α → Except ε α) (res item : Except ε α)
    (h : isFailure item = true) : isFailure (step1 op res item) = true := by
  cases item with
  | error e => cases res <;> rfl
  | ok a => exact absurd h (by simp [isFailure])

theorem get?_some_lt {l : List β} {n : Nat} {a : β} (h : l.get? n = some a) :
    n < l.length := by
  rcases List.get?_eq_some.mp h with ⟨hlt, _⟩
  exact hlt

theorem failInv_init (e : α) (runs : List (List (Except ε α)))
    (hfail : ∃ item ∈ runs.flatten, isFailure item = true) :
    FailInv (initState e runs) := by
  obtain ⟨item, hmem, herr⟩ := hfail
  obtain ⟨run, hrun, hitem⟩ := List.mem_flatten.mp hmem
  obtain ⟨n, hn⟩ := List.get?_of_mem hrun
  refine Or.inr ⟨rfl, n, { result := Except.ok e, remaining := run, halted := false },
    ?_, rfl, item, hitem, herr⟩
  show (runs.map _).get? n = _
  rw [List.get?_map, hn]
  rfl

theorem failInv_step (op : α → α → Except ε α) {s s' : SysState α ε}
    (hstep : Step op s s') (hinv : FailInv s) : FailInv s' := by
  cases hstep with
  | process i L item rest h1 h2 h3 =>
    have hlt : i < s.leaves.length := get?_some_lt h1
    cases hinv with
    | inl herrleaf =>
      obtain ⟨n, Ln, hn, herr⟩ := herrleaf
      by_cases hni : n = i
      · subst hni
        have hLn : Ln = L := Option.some.inj (hn.symm.trans h1)
        subst hLn
        exact Or.inl ⟨n, _, by
          show (s.leaves.set n _).get? n = _
          rw [List.get?_set_eq_of_lt _ hlt], step1_keeps_failure op Ln.result item herr⟩
      · exact Or.inl ⟨n, Ln, by
          show (s.leaves.set i _).get? n = _
          rw [List.get?_set_ne _ _ (fun hc => hni hc.symm)]
          exact hn, herr⟩
    | inr hpend =>
      obtain ⟨hflag, n, Ln, hn, hhalt, item', hmem', herr'⟩ := hpend
      by_cases hfail' : isFailure (step1 op L.result item) = true
      · exact Or.inl ⟨i, _, by
          show (s.leaves.set i _).get? i = _
          rw [List.get?_set_eq_of_lt _ hlt], hfail'⟩
      · have hflag' : (s.flag || isFailure (step1 op L.result item)) = false := by
          rw [hflag, Bool.eq_false_iff.mpr hfail']
          rfl
        by_cases hni : n = i
        · subst hni
          have hLn : Ln = L := Option.some.inj (hn.symm.trans h1)
          subst hLn
          rw [h3] at hmem'
          rcases List.mem_cons.mp hmem' with hjj | hjj
          · subst hjj
            exact absurd (step1_fail_item op Ln.result item' herr') hfail'
          · exact Or.inr ⟨hflag', n, _, by
              show (s.leaves.set n _).get? n = _
              rw [List.get?_set_eq_of_lt _ hlt], rfl, item', hjj, herr'⟩
        · exact Or.inr ⟨hflag', n, Ln, by
            show (s.leaves.set i _).get? n = _
            rw [List.get?_set_ne _ _ (fun hc => hni hc.symm)]
            exact hn, hhalt, item', hmem', herr'⟩
  | stop i L h1 h2 h3 =>
    have hlt : i < s.leaves.length := get?_some_lt h1
    cases hinv with
    | inl herrleaf =>
      obtain ⟨n, Ln, hn, herr⟩ := herrleaf
      by_cases hni : n = i
      · subst hni
        have hLn : Ln = L := Option.some.inj (hn.symm.trans h1)
        subst hLn
        refine Or.inl ⟨n, { Ln with halted := true }, ?_, herr⟩
        show (s.leaves.set n _).get? n = _
        rw [List.get?_set_eq_of_lt _ hlt]
      · exact Or.inl ⟨n, Ln, by
          show (s.leaves.set i _).get? n = _
          rw [List.get?_set_ne _ _ (fun hc => hni hc.symm)]
          exact hn, herr⟩
    | inr hpend =>
      obtain ⟨hflag, _⟩ := hpend
      rw [hflag] at h3
      exact absurd h3 (by simp)
  | finish i L h1 h2 h3 =>
    have hlt : i < s.leaves.length := get?_some_lt h1
    cases hinv with
    | inl herrleaf =>
      obtain ⟨n, Ln, hn, herr⟩ := herrleaf
      by_cases hni : n = i
      · subst hni
        have hLn : Ln = L := Option.some.inj (hn.symm.trans h1)
        subst hLn
        refine Or.inl ⟨n, { Ln with halted := true }, ?_, herr⟩
        show (s.leaves.set n _).get? n = _
        rw [List.get?_set_eq_of_lt _ hlt]
      · exact Or.inl ⟨n, Ln, by
          show (s.leaves.set i _).get? n = _
          rw [List.get?_set_ne _ _ (fun hc => hni hc.symm)]
          exact hn, herr⟩
    | inr hpend =>
      obtain ⟨hflag, n, Ln, hn, hhalt, item', hmem', herr'⟩ := hpend
      by_cases hni : n = i
      · subst hni
        have hLn : Ln = L := Option.some.inj (hn.symm.trans h1)
        subst hLn
        rw [h3] at hmem'
        exact absurd hmem' (List.not_mem_nil item')
      · exact Or.inr ⟨hflag, n, Ln, by
          show (s.leaves.set i _).get? n = _
          rw [List.get?_set_ne _ _ (fun hc => hni hc.symm)]
          exact hn, hhalt, item', hmem', herr'⟩

theorem failInv_reaches (op : α → α → Except ε α) {s s' : SysState α ε}
    (h : Reaches op s s') (hinv : FailInv s) : FailInv s' := by
  induction h with
  | refl => exact hinv
  | tail hr hstep ih => exact failInv_step op hstep ih

theorem allHalted_failInv_errLeaf {s : SysState α ε}
    (hhalt : AllHalted s) (hinv : FailInv s) : ErrLeaf s := by
  cases hinv with
  | inl h => exact h
  | inr h =>
    obtain ⟨hflag, n, L, hn, hhalted, _⟩ := h
    have := hhalt L (List.get?_mem hn)
    rw [this] at hhalted
    exact absurd hhalted (by simp)

theorem errLeaf_outcome {s : SysState α ε} (h : ErrLeaf s) :
    ∃ o ∈ sysOutcomes s, isFailure o = true := by
  obtain ⟨n, L, hn, herr⟩ := h
  refine ⟨complete { result := L.result }, ?_, ?_⟩
  · exact List.mem_map.mpr ⟨L, List.get?_mem hn, rfl⟩
  · rw [complete_eq]
    exact herr

theorem mergeTree_err (op : α → α → Except ε α) :
    ∀ (t : MergeTree α ε) (o : Except ε α), o ∈ t.outs → isFailure o = true →
      isFailure (t.result op) = true := by
  intro t
  induction t with
  | leaf o' =>
    intro o hmem herr
    have : o = o' := by simpa [MergeTree.outs] using hmem
    rw [← this]
    exact herr
  | node l r ihl ihr =>
    intro o hmem herr
    rcases List.mem_append.mp hmem with h | h
    · exact isFailure_reduce op _ _ (Or.inl (ihl o h herr))
    · exact isFailure_reduce op _ _ (Or.inr (ihr o h herr))

/-- Claim C2: if at least one input item is a failure then, for every
split of the input into contiguous runs folded by interleaved leaves
(single-item and per-iteration bulk consumption, early stops on a tripped
abort flag included), every reachable state in which all leaves have
stopped yields, under every pairwise `reduce` merge of the completed leaf
Outcomes, a Failure — never a Success. -/
theorem claim_C2_failure_containment (op : α → α → Except ε α) (e : α)
    (runs : List (List (Except ε α)))
    (hfail : ∃ item ∈ runs.flatten, isFailure item = true)
    (s : SysState α ε) (hreach : Reaches op (initState e runs) s)
    (hhalt : AllHalted s)
    (t : MergeTree α ε) (hms : t.outs = sysOutcomes s) :
    isFailure (t.result op) = true := by
  have hinv := failInv_reaches op hreach (failInv_init e runs hfail)
  obtain ⟨o, hmem, herr⟩ := errLeaf_outcome (allHalted_failInv_errLeaf hhalt hinv)
  refine mergeTree_err op t o ?_ herr
  rw [hms]
  exact hmem

theorem claim_C2_failure_containment_witness :
    isFailure ((MergeTree.leaf (Except.error "bad") : MergeTree Nat String).result addOp)
      = true := by
  have hstep1 : Step addOp (initState 0 [[Except.error "bad"]])
      ⟨true, [⟨Except.error "bad", [], false⟩]⟩ :=
    Step.process (initState 0 [[Except.error "bad"]]) 0
      ⟨Except.ok 0, [Except.error "bad"], false⟩ (Except.error "bad") [] rfl rfl rfl
  have hstep2 : Step addOp (⟨true, [⟨Except.error "bad", [], false⟩]⟩ : SysState Nat String)
      ⟨true, [⟨Except.error "bad", [], true⟩]⟩ :=
    Step.finish _ 0 ⟨Except.error "bad", [], false⟩ rfl rfl rfl
  exact claim_C2_failure_containment addOp 0 [[Except.error "bad"]]
    ⟨Except.error "bad", by decide, rfl⟩
    ⟨true, [⟨Except.error "bad", [], true⟩]⟩
    (Relation.ReflTransGen.tail (Relation.ReflTransGen.tail
      Relation.ReflTransGen.refl hstep1) hstep2)
    (by
      intro L hL
      rw [List.mem_singleton] at hL
      rw [hL])
    (MergeTree.leaf (Except.error "bad")) rfl

end FailureClaims

section ScenarioClaims

variable {α ε : Type}

theorem listSeg_take (xs : List β) (i j m : Nat) (h : m ≤ j - i) :
    (listSeg xs i j).take m = listSeg xs i (i + m) := by
  unfold listSeg
  rw [List.take_take]
  congr 1
  omega

theorem listSeg_drop (xs : List β) (i j m : Nat) :
    (listSeg xs i j).drop m = listSeg xs (i + m) j := by
  unfold listSeg
  rw [List.drop_take, List.drop_drop]
  congr 1
  omega

theorem listSeg_length (xs : List β) (i j : Nat) (hij : i ≤ j)
    (hj : j ≤ xs.length) : (listSeg xs i j).length = j - i := by
  simp [listSeg]
  omega

theorem splitTree_outcome_on_seg (op : α → α → Except ε α) (e : α)
    (items : List (Except ε α))
    (hmerge : ∀ j, j ≤ items.length → ∀ k, k ≤ j → ∀ i, i ≤ k →
      reduce op (seqFold op (Except.ok e) (listSeg items i k))
        (seqFold op (Except.ok e) (listSeg items k j)) =
      seqFold op (Except.ok e) (listSeg items i j)) :
    ∀ (t : SplitTree α ε) (i j : Nat), i ≤ j → j ≤ items.length →
      t.flatten = listSeg items i j →
      t.outcome op e = seqFold op (Except.ok e) (listSeg items i j) := by
  intro t
  induction t with
  | leaf run =>
    intro i j hij hj hcover
    simp only [SplitTree.flatten] at hcover
    show leafOutcome op e run = _
    rw [leafOutcome_eq_seqFold, hcover]
  | node l r ihl ihr =>
    intro i j hij hj hcover
    simp only [SplitTree.flatten] at hcover
    have hm : l.flatten.length + r.flatten.length = j - i := by
      rw [← List.length_append, hcover, listSeg_length items i j hij hj]
    have hkj : i + l.flatten.length ≤ j := by omega
    have h1 : l.flatten = listSeg items i (i + l.flatten.length) := by
      rw [← listSeg_take items i j l.flatten.length (by omega), ← hcover,
        List.take_left]
    have h2 : r.flatten = listSeg items (i + l.flatten.length) j := by
      rw [← listSeg_drop items i j l.flatten.length, ← hcover, List.drop_left]
    show reduce op (l.outcome op e) (r.outcome op e) = _
    rw [ihl i (i + l.flatten.length) (by omega) (by omega) h1,
      ihr (i + l.flatten.length) j hkj hj h2]
    exact hmerge j hj (i + l.flatten.length) hkj i (by omega)

/-- Claim C3: for the input `[Success(1), Success(2), Failure("bad"),
Success(4)]` with identity `Success(0)` and a sum capped at 5 (larger sums
yield `Failure("overflow")`), every split of the input into ordered
contiguous runs merged pairwise in input order reports exactly
`Failure("bad")` — never `Failure("overflow")` and never a Success. -/
theorem claim_C3_scenario_a (t : SplitTree Nat String)
    (hcover : t.flatten = scenarioItems) :
    t.outcome capOp 0 = Except.error "bad" := by
  have h := splitTree_outcome_on_seg capOp 0 scenarioItems (by decide)
    t 0 4 (by decide) (by decide) (by rw [hcover]; rfl)
  rw [h]
  rfl

theorem claim_C3_scenario_a_witness :
    ((SplitTree.node (SplitTree.leaf [Except.ok 1, Except.ok 2])
      (SplitTree.node (SplitTree.leaf [Except.error "bad"])
        (SplitTree.leaf [Except.ok 4]))) : SplitTree Nat String).flatten = scenarioItems
  ∧ ((SplitTree.node (SplitTree.leaf [Except.ok 1, Except.ok 2])
      (SplitTree.node (SplitTree.leaf [Except.error "bad"])
        (SplitTree.leaf [Except.ok 4]))) : SplitTree Nat String).outcome capOp 0 =
      Except.error "bad" :=
  ⟨rfl, claim_C3_scenario_a (SplitTree.node (SplitTree.leaf [Except.ok 1, Except.ok 2])
      (SplitTree.node (SplitTree.leaf [Except.error "bad"])
        (SplitTree.leaf [Except.ok 4]))) rfl⟩

end ScenarioClaims
